import Mathlib

/-!
# Verification of the student finance bot (`src/bot.py`)

A shallow embedding of the data model and operations of `bot.py`
together with proofs about them.

Modelling conventions:

* Python `float` amounts are modelled as exact rationals (`Rat`); IEEE
  rounding is not modelled because no statement below depends on it.
  The special values produced by `float(...)` parsing (`nan`, `inf`)
  are modelled symbolically by the `PyFloat` type where they matter.
* Python strings are Lean `String`s; `str.strip()` is modelled by
  `pyStrip` over the ASCII whitespace characters (the exotic Unicode
  whitespace stripped by Python never appears in any statement below),
  and `str.lower()` by `pyLower`, which lowers ASCII letters and the
  Cyrillic ranges used by the bot's command phrases and leaves every
  other character unchanged, exactly as `str.lower()` does on the
  character sets that occur in the program's comparisons.
* A Python expense dict is modelled by `Expense`, a record of optional
  fields: `e.get(k, d)` becomes `(e.k).getD d`.
* Python dicts built by the report function are modelled as
  insertion-ordered association lists with unique keys (`dictGet` /
  `dictSet`), matching CPython dict semantics.
-/

/-- ASCII whitespace as stripped by `str.strip()` (the Unicode
whitespace Python also strips never occurs in the statements below). -/
def isPySpace (c : Char) : Bool :=
  c = ' ' || c = '\t' || c = '\n' || c = '\r' ||
  c = Char.ofNat 0x0b || c = Char.ofNat 0x0c

/-- `str.strip()` on the character list of a string. -/
def stripChars (l : List Char) : List Char :=
  ((l.dropWhile isPySpace).reverse.dropWhile isPySpace).reverse

/-- Model of Python `str.strip()`. -/
def pyStrip (s : String) : String :=
  ⟨stripChars s.data⟩

/-- Model of Python `str.lower()` on one character: ASCII letters and
the Cyrillic blocks appearing in the bot's command phrases are lowered
(code-point offsets as in Unicode simple case folding); all other
characters are fixed. -/
def pyLowerChar (c : Char) : Char :=
  if 'A' ≤ c && c ≤ 'Z' then Char.ofNat (c.toNat + 32)
  else if 0x410 ≤ c.toNat && c.toNat ≤ 0x42F then Char.ofNat (c.toNat + 0x20)
  else if 0x400 ≤ c.toNat && c.toNat ≤ 0x40F then Char.ofNat (c.toNat + 0x50)
  else if c.toNat = 0x490 then Char.ofNat 0x491
  else c

/-- Model of Python `str.lower()`. -/
def pyLower (s : String) : String :=
  ⟨s.data.map pyLowerChar⟩

/-- One expense record (a Python dict). Every field is optional
because the persisted store may have been hand-edited; `e.get(k, d)`
is `(e.k).getD d`. -/
structure Expense where
  amount : Option Rat
  category : Option String
  date : Option String
  comment : Option String
deriving DecidableEq, Repr

/-- `total_expenses`: `sum(float(e.get("amount", 0)) for e in expenses)`. -/
def total_expenses (expenses : List Expense) : Rat :=
  (expenses.map (fun e => e.amount.getD 0)).sum

/-- `calculate_balance`: `float(budget) - total_expenses(expenses)`. -/
def calculate_balance (budget : Rat) (expenses : List Expense) : Rat :=
  budget - total_expenses expenses

/-- `normalize_category`: strip, and substitute the sentinel label for
a blank result. -/
def normalize_category (cat : String) : String :=
  let c := pyStrip cat
  if c = "" then "Без категорії" else c

/-- `dict.get(k, dflt)` on an insertion-ordered association list with
unique keys. -/
def dictGet (d : List (String × Rat)) (k : String) (dflt : Rat) : Rat :=
  match d with
  | [] => dflt
  | (k', v) :: rest => if k' == k then v else dictGet rest k dflt

/-- `dict[k] = v` on an insertion-ordered association list with unique
keys: an existing key is updated in place, a new key is appended. -/
def dictSet (d : List (String × Rat)) (k : String) (v : Rat) : List (String × Rat) :=
  match d with
  | [] => [(k, v)]
  | (k', v') :: rest => if k' == k then (k', v) :: rest else (k', v') :: dictSet rest k v

/-- The group label `report_by_categories` computes for one expense:
`str(e.get("category", "Без категорії")).strip()`. -/
def reportLabel (e : Expense) : String :=
  pyStrip (e.category.getD "Без категорії")

/-- `report_by_categories`: fold over the expenses building the
category → sum dict; `report[cat] = report.get(cat, 0.0) + amount`. -/
def report_by_categories (expenses : List Expense) : List (String × Rat) :=
  expenses.foldl
    (fun report e =>
      let cat := reportLabel e
      let amount := e.amount.getD 0
      dictSet report cat (dictGet report cat 0 + amount))
    []

theorem dictGet_dictSet (d : List (String × Rat)) (k c : String) (v dflt : Rat) :
    dictGet (dictSet d k v) c dflt = if k == c then v else dictGet d c dflt := by
  induction d with
  | nil => simp [dictSet, dictGet]
  | cons p rest ih =>
    obtain ⟨k', v'⟩ := p
    by_cases h1 : k' = k
    · subst h1
      by_cases h2 : k' = c
      · subst h2; simp [dictSet, dictGet]
      · simp [dictSet, dictGet, beq_iff_eq, h2]
    · by_cases h2 : k' = c
      · subst h2
        simp [dictSet, dictGet, beq_iff_eq, h1, Ne.symm h1]
      · simp [dictSet, dictGet, beq_iff_eq, h1, h2, ih]

theorem dictGet_report_fold (es : List Expense) (acc : List (String × Rat)) (c : String) :
    dictGet (es.foldl
      (fun report e =>
        dictSet report (reportLabel e)
          (dictGet report (reportLabel e) 0 + e.amount.getD 0)) acc) c 0 =
    dictGet acc c 0 + total_expenses (es.filter (fun e => reportLabel e == c)) := by
  induction es generalizing acc with
  | nil => simp [total_expenses]
  | cons e es ih =>
    simp only [List.foldl_cons, ih, dictGet_dictSet, List.filter_cons]
    by_cases h : reportLabel e = c
    · subst h
      simp [total_expenses, add_assoc]
    · simp [h, beq_iff_eq]

/-- Each group of the report maps to the sum of the amounts of exactly
the expenses whose stripped category label is that group's label
(missing amounts counting as 0, absent labels summing to 0). -/
theorem dictGet_report (es : List Expense) (c : String) :
    dictGet (report_by_categories es) c 0 =
    total_expenses (es.filter (fun e => reportLabel e == c)) := by
  have h := dictGet_report_fold es [] c
  simpa [report_by_categories, dictGet] using h

/-- C5: `total_expenses` of the empty list is 0, and the total is
invariant under any permutation of the expense list (the sum of the
`amount` fields, a missing `amount` counting as 0, does not depend on
order). -/
theorem total_expenses_reorder_invariant :
    total_expenses [] = 0 ∧
    ∀ (l l' : List Expense), l.Perm l' → total_expenses l = total_expenses l' := by
  constructor
  · rfl
  · intro l l' h
    unfold total_expenses
    exact List.Perm.sum_eq (h.map _)

/-- Witness for C5 at a concrete permutation of a two-element list. -/
theorem total_expenses_reorder_invariant_witness :
    total_expenses [⟨some 1, none, none, none⟩, ⟨some 2, none, none, none⟩] =
    total_expenses [⟨some 2, none, none, none⟩, ⟨some 1, none, none, none⟩] :=
  total_expenses_reorder_invariant.2 _ _ (List.Perm.swap _ _ _)

/-- C2 (corrected): counterexample to the claim as stated — the
expenses with categories "Food" and "food " are NOT merged into one
group; `report_by_categories` strips whitespace but does not fold
letter case, so they yield two groups with separate sums. -/
theorem report_case_not_folded_counterexample :
    report_by_categories
      [⟨some 1, some "Food", none, none⟩, ⟨some 2, some "food ", none, none⟩] =
    [("Food", 1), ("food", 2)] := by
  have h : report_by_categories
      [⟨some 1, some "Food", none, none⟩, ⟨some 2, some "food ", none, none⟩] =
      [("Food", (0 : Rat) + 1), ("food", (0 : Rat) + 2)] := rfl
  rw [h, zero_add, zero_add]

/-- C2 (amended): `report_by_categories` groups expenses whose
category labels differ only in surrounding whitespace into a single
group under the stripped label with amounts summed (each group label
maps to the sum over exactly the expenses with that stripped label),
but letter case is not folded: "Food" and "food " give two distinct
groups. -/
theorem report_groups_by_stripped_label :
    (∀ (es : List Expense) (c : String),
      dictGet (report_by_categories es) c 0 =
        total_expenses (es.filter (fun e => reportLabel e == c))) ∧
    (∀ a b : Rat,
      report_by_categories
        [⟨some a, some "Food", none, none⟩, ⟨some b, some " Food ", none, none⟩] =
      [("Food", a + b)]) ∧
    (∀ a b : Rat,
      report_by_categories
        [⟨some a, some "Food", none, none⟩, ⟨some b, some "food ", none, none⟩] =
      [("Food", a), ("food", b)]) := by
  refine ⟨dictGet_report, ?_, ?_⟩
  · intro a b
    have h : report_by_categories
        [⟨some a, some "Food", none, none⟩, ⟨some b, some " Food ", none, none⟩] =
        [("Food", 0 + a + b)] := rfl
    rw [h, zero_add]
  · intro a b
    have h : report_by_categories
        [⟨some a, some "Food", none, none⟩, ⟨some b, some "food ", none, none⟩] =
        [("Food", 0 + a), ("food", 0 + b)] := rfl
    rw [h, zero_add, zero_add]

/-- C3 (corrected): counterexample to the claim as stated — an expense
whose `category` field is present but blank (whitespace-only) is
grouped under the empty-string label "", not under the sentinel
"Без категорії"; the sentinel default applies only when the key is
missing. -/
theorem report_blank_category_counterexample :
    report_by_categories [⟨some 5, some " ", none, none⟩] = [("", 5)] := by
  have h : report_by_categories [⟨some 5, some " ", none, none⟩] =
      [("", (0 : Rat) + 5)] := rfl
  rw [h, zero_add]

/-- C3 (amended): `report_by_categories` assigns an expense with a
missing `category` field to the sentinel label "Без категорії", but an
expense whose category is present and blank to the empty-string label
""; a missing `amount` is treated as 0; each group label maps to the
sum of the amounts of its expenses. -/
theorem report_missing_field_policy :
    (∀ a : Rat, report_by_categories [⟨some a, none, none, none⟩] =
      [("Без категорії", a)]) ∧
    (∀ a : Rat, report_by_categories [⟨some a, some "  ", none, none⟩] =
      [("", a)]) ∧
    (report_by_categories [⟨none, some "Кава", none, none⟩] = [("Кава", 0)]) ∧
    (∀ (es : List Expense) (c : String),
      dictGet (report_by_categories es) c 0 =
        total_expenses (es.filter (fun e => reportLabel e == c))) := by
  have hk : report_by_categories [⟨none, some "Кава", none, none⟩] =
      [("Кава", (0 : Rat) + 0)] := rfl
  refine ⟨?_, ?_, by rw [hk, zero_add], dictGet_report⟩
  · intro a
    have h : report_by_categories [⟨some a, none, none, none⟩] =
        [("Без категорії", 0 + a)] := rfl
    rw [h, zero_add]
  · intro a
    have h : report_by_categories [⟨some a, some "  ", none, none⟩] =
        [("", 0 + a)] := rfl
    rw [h, zero_add]

/-! ## Storage adapter (`default_state`, `load_state`, `save_state`)

The persisted JSON value is modelled by the `Json` inductive; the
state of the storage file by `FileContent`, which abstracts the
parsing boundary: the file is absent, its text fails to parse (or
reading raises `OSError`), or it parses to a `Json` value.
`json.dump`/`json.load` are assumed to round-trip the `Json` value at
this boundary (CPython preserves object key order and, with
`ensure_ascii=False`, text verbatim). -/

/-- A parsed JSON value.  Numbers are exact rationals. -/
inductive Json where
  | null
  | bool (b : Bool)
  | num (q : Rat)
  | str (s : String)
  | arr (elems : List Json)
  | obj (members : List (String × Json))

/-- Does `l` start with `sub`? -/
def subStart : List Char → List Char → Bool
  | _, [] => true
  | [], _ :: _ => false
  | c :: cs, d :: ds => c == d && subStart cs ds

/-- Substring test, modelling Python `key in some_string`. -/
def containsSub : List Char → List Char → Bool
  | [], sub => sub.isEmpty
  | c :: rest, sub => subStart (c :: rest) sub || containsSub rest sub

/-- `kvs` has a member named `k` (Python `k in some_dict`). -/
def hasKeyObj (kvs : List (String × Json)) (k : String) : Bool :=
  kvs.any (fun p => p.1 == k)

/-- Object member lookup; the last binding wins, as in `json.load`,
which builds the dict by successive assignment. -/
def objGet (kvs : List (String × Json)) (k : String) : Option Json :=
  (kvs.reverse.find? (fun p => p.1 == k)).map Prod.snd

/-- Python `key in value`: membership on dicts, element equality on
lists, substring on strings; `TypeError` on every other value. -/
def pyIn (key : String) : Json → Except Unit Bool
  | .obj kvs => .ok (hasKeyObj kvs key)
  | .arr es => .ok (es.any (fun j => match j with | .str s => s == key | _ => false))
  | .str s => .ok (containsSub s.data key.data)
  | _ => .error ()

/-- Python `value[key]` for a string key: dict lookup (`KeyError`
when missing); `TypeError` on lists, strings and every other value. -/
def pySubscript (state : Json) (key : String) : Except Unit Json :=
  match state with
  | .obj kvs =>
    match objGet kvs key with
    | some v => .ok v
    | none => .error ()
  | _ => .error ()

/-- `isinstance(v, list)`. -/
def isList : Json → Bool
  | .arr _ => true
  | _ => false

/-- `default_state()`: budget 0, empty expense list. -/
def default_state : Json :=
  .obj [("budget", .num 0), ("expenses", .arr [])]

/-- State of the storage file, abstracting the parsing boundary. -/
inductive FileContent where
  | absent
  | unparsable
  | parsed (j : Json)

/-- `load_state`: default state when the file is absent or fails to
parse; then the shape check
`"budget" not in state or "expenses" not in state or not isinstance(state["expenses"], list)`
returns the default, otherwise the state verbatim.  The `in` and
subscription operations raise `TypeError` on non-container values,
which is not among the exceptions the source catches, hence
`.error ()`. -/
def load_state (fc : FileContent) : Except Unit Json :=
  match fc with
  | .absent => .ok default_state
  | .unparsable => .ok default_state
  | .parsed state =>
    match pyIn "budget" state with
    | .error _ => .error ()
    | .ok bud =>
      if !bud then .ok default_state
      else
        match pyIn "expenses" state with
        | .error _ => .error ()
        | .ok exps =>
          if !exps then .ok default_state
          else
            match pySubscript state "expenses" with
            | .error _ => .error ()
            | .ok v => if !(isList v) then .ok default_state else .ok state

/-- `save_state` writes the serialized ledger; at this model's
boundary the file then parses back to the same `Json` value. -/
def save_state (state : Json) : FileContent :=
  .parsed state

theorem hasKeyObj_of_objGet {kvs : List (String × Json)} {k : String} {v : Json}
    (h : objGet kvs k = some v) : hasKeyObj kvs k = true := by
  unfold objGet at h
  cases hf : (kvs.reverse.find? (fun p => p.1 == k)) with
  | none => rw [hf] at h; simp at h
  | some p =>
    have hp := List.find?_some hf
    have hm := List.mem_of_find?_eq_some hf
    rw [List.mem_reverse] at hm
    exact List.any_eq_true.2 ⟨p, hm, hp⟩

theorem pySubscript_obj {kvs : List (String × Json)} {k : String} {v : Json}
    (h : objGet kvs k = some v) : pySubscript (.obj kvs) k = .ok v := by
  simp [pySubscript, h]

/-- A well-formed Ledger: a JSON object with a numeric `budget` member
and a sequence-valued `expenses` member. -/
def well_formed_ledger (L : Json) : Prop :=
  ∃ (kvs : List (String × Json)) (b : Rat) (es : List Json),
    L = Json.obj kvs ∧
    objGet kvs "budget" = some (Json.num b) ∧
    objGet kvs "expenses" = some (Json.arr es)

/-- C1 (corrected): counterexample to the claim as stated — a file
whose content parses to the bare JSON number `5` (a parsed structure
with no `budget` key at all) does not make `load_state` return the
default Ledger: `"budget" not in state` raises an uncaught `TypeError`
on a non-container value, so the call raises instead. -/
theorem load_state_non_object_counterexample :
    load_state (.parsed (.num 5)) = .error () := rfl

/-- C1 (amended): `load_state` returns the default empty Ledger when
the file is absent or unparsable, and, for a parsed JSON object, when
the `budget` key is missing, the `expenses` key is missing, or
`expenses` is not a sequence; an object with both keys and
sequence-valued `expenses` is returned verbatim.  A parsed
non-container value — every bare number, boolean, or null — instead
raises an uncaught `TypeError` at the `"budget" not in state`
membership test; parsed strings and arrays go through Python's
substring/element membership tests, so e.g. a file containing the
bare string `"hello"` loads as the default.  In particular
`{"budget": 5}` loads as the default empty Ledger. -/
theorem load_state_shape_check :
    (load_state .absent = .ok default_state) ∧
    (load_state .unparsable = .ok default_state) ∧
    (∀ kvs, hasKeyObj kvs "budget" = false →
      load_state (.parsed (.obj kvs)) = .ok default_state) ∧
    (∀ kvs, hasKeyObj kvs "expenses" = false →
      load_state (.parsed (.obj kvs)) = .ok default_state) ∧
    (∀ kvs v, objGet kvs "expenses" = some v → isList v = false →
      load_state (.parsed (.obj kvs)) = .ok default_state) ∧
    (∀ kvs b es, objGet kvs "budget" = some b →
      objGet kvs "expenses" = some (Json.arr es) →
      load_state (.parsed (.obj kvs)) = .ok (.obj kvs)) ∧
    (load_state (.parsed (.obj [("budget", .num 5)])) = .ok default_state) ∧
    (∀ q : Rat, load_state (.parsed (.num q)) = .error ()) ∧
    (∀ b : Bool, load_state (.parsed (.bool b)) = .error ()) ∧
    (load_state (.parsed .null) = .error ()) ∧
    (load_state (.parsed (.str "hello")) = .ok default_state) := by
  refine ⟨rfl, rfl, ?_, ?_, ?_, ?_, rfl, fun q => rfl, fun b => rfl, rfl, rfl⟩
  · intro kvs h
    simp [load_state, pyIn, h]
  · intro kvs h
    by_cases hb : hasKeyObj kvs "budget" <;>
      simp [load_state, pyIn, hb, h]
  · intro kvs v hv hl
    have hke := hasKeyObj_of_objGet hv
    by_cases hb : hasKeyObj kvs "budget"
    · simp [load_state, pyIn, hb, hke, pySubscript, hv, hl]
    · simp [load_state, pyIn, hb]
  · intro kvs b es hb he
    have hkb := hasKeyObj_of_objGet hb
    have hke := hasKeyObj_of_objGet he
    simp [load_state, pyIn, hkb, hke, pySubscript, he, isList]

/-- Witness for C1 at a concrete well-formed object: the default
ledger object itself passes the shape check and loads verbatim. -/
theorem load_state_shape_check_witness :
    load_state (.parsed (.obj [("budget", .num 0), ("expenses", .arr [])])) =
      .ok (.obj [("budget", .num 0), ("expenses", .arr [])]) :=
  load_state_shape_check.2.2.2.2.2.1 _ (.num 0) [] rfl rfl

/-- C7: round-trip — for every well-formed Ledger (a JSON object with
a numeric `budget` member and a sequence-valued `expenses` member),
saving and loading returns exactly the same Ledger. -/
theorem load_save_roundtrip (L : Json) (h : well_formed_ledger L) :
    load_state (save_state L) = .ok L := by
  obtain ⟨kvs, b, es, rfl, hb, he⟩ := h
  have hkb := hasKeyObj_of_objGet hb
  have hke := hasKeyObj_of_objGet he
  simp [save_state, load_state, pyIn, hkb, hke, pySubscript, he, isList]

/-- Witness for C7 at the concrete default ledger. -/
theorem load_save_roundtrip_witness :
    load_state (save_state default_state) = .ok default_state :=
  load_save_roundtrip default_state
    ⟨[("budget", .num 0), ("expenses", .arr [])], 0, [], rfl, rfl, rfl⟩

/-! ## The add-expense handler's budget message (`cmd_add_expense`) -/

/-- The console message `cmd_add_expense` emits after persisting. -/
inductive BudgetMsg where
  | overBudget (overage : Rat)
  | remainingBudget (balance : Rat)
  | noMsg
deriving DecidableEq, Repr

/-- `cmd_add_expense`, after its three input prompts have produced an
amount, a raw category, a date string and a comment: builds the
expense record, appends it to the state, and evaluates the budget
check (`if budget > 0 and balance < 0` … `elif budget > 0` …).
Returns the new expense list and the emitted budget message. -/
def cmd_add_expense (budget : Rat) (expenses : List Expense)
    (amount : Rat) (category exp_date comment : String) :
    List Expense × BudgetMsg :=
  let expense : Expense :=
    ⟨some amount, some (normalize_category category), some exp_date,
      some (pyStrip comment)⟩
  let expenses' := expenses ++ [expense]
  let balance := calculate_balance budget expenses'
  let msg :=
    if 0 < budget ∧ balance < 0 then BudgetMsg.overBudget |balance|
    else if 0 < budget then BudgetMsg.remainingBudget balance
    else BudgetMsg.noMsg
  (expenses', msg)

/-- C8 (confirmed): after appending the new expense, the handler emits
the over-budget warning, carrying overage `total - budget`, exactly
when the budget is positive and the new running total exceeds it; when
the budget is positive and not exceeded it reports the remaining
balance `budget - total`; when the budget is zero it emits neither;
and with budget 50 and a first expense of 80 the warning reports an
overage of 30. -/
theorem cmd_add_expense_budget_message :
    (∀ (budget : Rat) (es : List Expense) (a : Rat) (c d m : String),
      (cmd_add_expense budget es a c d m).2 =
          BudgetMsg.overBudget
            (total_expenses (cmd_add_expense budget es a c d m).1 - budget) ↔
        0 < budget ∧ budget < total_expenses (cmd_add_expense budget es a c d m).1) ∧
    (∀ (budget : Rat) (es : List Expense) (a : Rat) (c d m : String),
      0 < budget → total_expenses (cmd_add_expense budget es a c d m).1 ≤ budget →
      (cmd_add_expense budget es a c d m).2 =
        BudgetMsg.remainingBudget
          (budget - total_expenses (cmd_add_expense budget es a c d m).1)) ∧
    (∀ (es : List Expense) (a : Rat) (c d m : String),
      (cmd_add_expense 0 es a c d m).2 = BudgetMsg.noMsg) ∧
    ((cmd_add_expense 50 [] 80 "Їжа" "2026-01-10" "").2 =
      BudgetMsg.overBudget 30) := by
  refine ⟨?_, ?_, ?_, ?_⟩
  · intro budget es a c d m
    simp only [cmd_add_expense, calculate_balance]
    set t := total_expenses (es ++
      [(⟨some a, some (normalize_category c), some d, some (pyStrip m)⟩ : Expense)]) with ht
    constructor
    · intro h
      split_ifs at h with h1 h2
      exact ⟨h1.1, by linarith [h1.2]⟩
    · rintro ⟨h1, h2⟩
      have hneg : budget - t < 0 := by linarith
      rw [if_pos ⟨h1, hneg⟩]
      congr 1
      rw [abs_of_neg hneg]
      ring
  · intro budget es a c d m h1 h2
    simp only [cmd_add_expense, calculate_balance] at h2 ⊢
    set t := total_expenses (es ++
      [(⟨some a, some (normalize_category c), some d, some (pyStrip m)⟩ : Expense)]) with ht
    have hnotneg : ¬ (budget - t < 0) := by linarith
    rw [if_neg (fun hc => hnotneg hc.2), if_pos h1]
  · intro es a c d m
    simp [cmd_add_expense]
  · simp only [cmd_add_expense, calculate_balance, total_expenses, List.nil_append,
      List.map_cons, List.map_nil, List.sum_cons, List.sum_nil, Option.getD_some]
    split_ifs with h1 h2
    · congr 1
      rw [abs_of_neg h1.2]
      norm_num
    · exact absurd ⟨by norm_num, by norm_num⟩ h1
    · exact absurd (by norm_num) h2

/-- Witness for C8: budget 100, first expense 30, remaining balance
reported. -/
theorem cmd_add_expense_budget_message_witness :
    (cmd_add_expense 100 [] 30 "Їжа" "2026-01-10" "").2 =
      BudgetMsg.remainingBudget
        (100 - total_expenses (cmd_add_expense 100 [] 30 "Їжа" "2026-01-10" "").1) :=
  cmd_add_expense_budget_message.2.1 100 [] 30 "Їжа" "2026-01-10" ""
    (by norm_num)
    (by norm_num [cmd_add_expense, total_expenses])

/-! ## Dates and `filter_by_period`

`datetime.strptime(s, "%Y-%m-%d")` is modelled after CPython's
`_strptime` regex: `%Y` matches exactly four digits, `%m` matches
`1[0-2]|0[1-9]|[1-9]`, `%d` matches `3[01]|[12]\d|0[1-9]|[1-9]`, the
literal `-` matches itself, the whole string must be consumed, and the
resulting `date(y, m, d)` construction rejects day numbers beyond the
month length and years below `MINYEAR = 1` (a four-digit year is
always within `MAXYEAR = 9999`). -/

def digitVal (c : Char) : Nat := c.toNat - '0'.toNat

def takeNDigitsAux : Nat → Nat → List Char → Option (Nat × List Char)
  | 0, acc, l => some (acc, l)
  | _ + 1, _, [] => none
  | n + 1, acc, c :: cs =>
    if c.isDigit then takeNDigitsAux n (10 * acc + digitVal c) cs else none

/-- Match exactly `n` digits. -/
def takeNDigits (n : Nat) (l : List Char) : Option (Nat × List Char) :=
  takeNDigitsAux n 0 l

/-- Match `1[0-2]|0[1-9]|[1-9]` (regex alternatives in order; the
two-character alternatives never block a parse the one-character
alternative would allow, because the following literal is `-`). -/
def takeMonth : List Char → Option (Nat × List Char)
  | c1 :: c2 :: rest =>
    if c1 = '1' && ('0' ≤ c2 && c2 ≤ '2') then some (10 + digitVal c2, rest)
    else if c1 = '0' && ('1' ≤ c2 && c2 ≤ '9') then some (digitVal c2, rest)
    else if '1' ≤ c1 && c1 ≤ '9' then some (digitVal c1, c2 :: rest)
    else none
  | [c1] => if '1' ≤ c1 && c1 ≤ '9' then some (digitVal c1, []) else none
  | [] => none

/-- Match `3[01]|[12]\d|0[1-9]|[1-9]` (regex alternatives in order). -/
def takeDay : List Char → Option (Nat × List Char)
  | c1 :: c2 :: rest =>
    if c1 = '3' && (c2 = '0' || c2 = '1') then some (30 + digitVal c2, rest)
    else if ('1' ≤ c1 && c1 ≤ '2') && c2.isDigit then
      some (10 * digitVal c1 + digitVal c2, rest)
    else if c1 = '0' && ('1' ≤ c2 && c2 ≤ '9') then some (digitVal c2, rest)
    else if '1' ≤ c1 && c1 ≤ '9' then some (digitVal c1, c2 :: rest)
    else none
  | [c1] => if '1' ≤ c1 && c1 ≤ '9' then some (digitVal c1, []) else none
  | [] => none

def isLeapYear (y : Nat) : Bool :=
  (y % 4 = 0 && y % 100 ≠ 0) || y % 400 = 0

def daysInMonth (y m : Nat) : Nat :=
  if m = 2 then (if isLeapYear y then 29 else 28)
  else if m = 4 || m = 6 || m = 9 || m = 11 then 30
  else 31

/-- A `datetime.date` value. -/
structure PyDate where
  year : Nat
  month : Nat
  day : Nat
deriving DecidableEq, Repr

/-- Dates compare lexicographically on (year, month, day); since the
parser guarantees `month ≤ 12` and `day ≤ 31`, the packed key respects
exactly that order. -/
def dateKey (d : PyDate) : Nat :=
  d.year * 10000 + d.month * 100 + d.day

/-- `datetime.strptime(s, "%Y-%m-%d").date()`, returning `none` where
Python raises `ValueError`. -/
def strptime_date (s : String) : Option PyDate :=
  match takeNDigits 4 s.data with
  | none => none
  | some (y, r1) =>
    match r1 with
    | '-' :: r2 =>
      match takeMonth r2 with
      | none => none
      | some (m, r3) =>
        match r3 with
        | '-' :: r4 =>
          match takeDay r4 with
          | none => none
          | some (d, r5) =>
            if r5.isEmpty then
              if 1 ≤ y && d ≤ daysInMonth y m then some ⟨y, m, d⟩ else none
            else none
        | _ => none
    | _ => none

/-- `str(e.get("date"))`: Python renders a missing key's `None` as the
string "None", which never parses as a date. -/
def dateStr (e : Expense) : String :=
  e.date.getD "None"

/-- `filter_by_period`: parse both bounds with `strptime` (uncaught
`ValueError` when either fails, modelled as `.error ()`), swap them
when `end < start`, then keep, in order, the expenses whose `date`
field parses and falls in the inclusive range; a record whose date
fails to parse is skipped by the `try/except ValueError: continue`. -/
def filter_by_period (expenses : List Expense) (start stop : String) :
    Except Unit (List Expense) :=
  match strptime_date start with
  | none => .error ()
  | some start_d =>
    match strptime_date stop with
    | none => .error ()
    | some end_d =>
      let p := if dateKey end_d < dateKey start_d then (end_d, start_d)
               else (start_d, end_d)
      .ok (expenses.filter (fun e =>
        match strptime_date (dateStr e) with
        | some d => decide (dateKey p.1 ≤ dateKey d) && decide (dateKey d ≤ dateKey p.2)
        | none => false))

/-- The range predicate `filter_by_period` applies to each record. -/
def inPeriod (lo hi : Nat) (e : Expense) : Bool :=
  match strptime_date (dateStr e) with
  | some d => decide (lo ≤ dateKey d) && decide (dateKey d ≤ hi)
  | none => false

theorem filter_by_period_eq_filter (es : List Expense) (s t : String)
    (ds dt : PyDate) (hs : strptime_date s = some ds)
    (ht : strptime_date t = some dt) :
    filter_by_period es s t =
      .ok (es.filter (inPeriod (min (dateKey ds) (dateKey dt))
        (max (dateKey ds) (dateKey dt)))) := by
  simp only [filter_by_period, hs, ht]
  rcases le_or_lt (dateKey ds) (dateKey dt) with h | h
  · rw [if_neg (not_lt.2 h)]
    simp [min_eq_left h, max_eq_right h]
    rfl
  · rw [if_pos h]
    simp [min_eq_right (le_of_lt h), max_eq_left (le_of_lt h)]
    rfl

/-- C6 (confirmed): for valid date bounds, `filter_by_period` is
invariant under swapping the two bounds (they are reordered before
filtering), returns normally, keeps exactly the expenses whose `date`
field parses to a date inside the inclusive range — silently excluding
records whose date fails to parse — and preserves the original order
(the result is a sublist of the input). -/
theorem filter_by_period_swap_and_range :
    ∀ (es : List Expense) (s t : String) (ds dt : PyDate),
      strptime_date s = some ds → strptime_date t = some dt →
      filter_by_period es s t = filter_by_period es t s ∧
      ∃ res, filter_by_period es s t = Except.ok res ∧
        res.Sublist es ∧
        ∀ x, x ∈ res ↔ x ∈ es ∧
          ∃ dx, strptime_date (dateStr x) = some dx ∧
            min (dateKey ds) (dateKey dt) ≤ dateKey dx ∧
            dateKey dx ≤ max (dateKey ds) (dateKey dt) := by
  intro es s t ds dt hs ht
  have h1 := filter_by_period_eq_filter es s t ds dt hs ht
  have h2 := filter_by_period_eq_filter es t s dt ds ht hs
  constructor
  · rw [h1, h2, min_comm (dateKey ds) (dateKey dt), max_comm (dateKey ds) (dateKey dt)]
  · refine ⟨_, h1, List.filter_sublist _, ?_⟩
    intro x
    rw [List.mem_filter]
    constructor
    · rintro ⟨hmem, hp⟩
      refine ⟨hmem, ?_⟩
      unfold inPeriod at hp
      cases hx : strptime_date (dateStr x) with
      | none => rw [hx] at hp; cases hp
      | some dx =>
        rw [hx] at hp
        simp only [Bool.and_eq_true, decide_eq_true_eq] at hp
        exact ⟨dx, rfl, hp.1, hp.2⟩
    · rintro ⟨hmem, dx, hdx, hlo, hhi⟩
      refine ⟨hmem, ?_⟩
      unfold inPeriod
      rw [hdx]
      simp [hlo, hhi]

/-- Witness for C6: a concrete list and swapped concrete bounds. -/
theorem filter_by_period_swap_witness :
    filter_by_period [(⟨some 10, some "Їжа", some "2026-01-05", some ""⟩ : Expense)]
        "2026-01-10" "2026-01-01" =
      filter_by_period [(⟨some 10, some "Їжа", some "2026-01-05", some ""⟩ : Expense)]
        "2026-01-01" "2026-01-10" :=
  (filter_by_period_swap_and_range _ "2026-01-10" "2026-01-01"
    ⟨2026, 1, 10⟩ ⟨2026, 1, 1⟩ (by decide) (by decide)).1

/-- C10 (confirmed): `filter_by_period` is strict about its own
bounds: it returns an error (the uncaught `ValueError` of `strptime`)
exactly when a bound fails to parse as a valid calendar date in the
`%Y-%m-%d` format, and returns normally whenever both bounds parse;
malformed dates are tolerated only inside expense records.  Concretely
the out-of-range date "2026-02-30" and the malformed "not-a-date" as a
bound both raise, whatever the expense list. -/
theorem filter_by_period_strict_bounds :
    (∀ (es : List Expense) (s t : String),
      filter_by_period es s t = .error () ↔
        strptime_date s = none ∨ strptime_date t = none) ∧
    filter_by_period [] "2026-02-30" "2026-12-01" = .error () ∧
    filter_by_period [] "2026-12-01" "not-a-date" = .error () := by
  refine ⟨?_, rfl, rfl⟩
  intro es s t
  cases hs : strptime_date s with
  | none => simp [filter_by_period, hs]
  | some ds =>
    cases ht : strptime_date t with
    | none => simp [filter_by_period, hs, ht]
    | some dt =>
      rw [filter_by_period_eq_filter es s t ds dt hs ht]
      simp

/-! ## `parse_float` (the amount prompt loop)

`float(raw)` is modelled by `pyFloatOfString`: optional sign, then the
special spellings `inf`/`infinity`/`nan` (case-insensitive) or a
decimal literal `digits [. digits] [(e|E) [sign] digits]` with
CPython's between-digits underscores.  Finite values are exact
rationals (`-0.0` collapses to `0`, which compares identically under
`< 0`); the specials are symbolic, with `nan` incomparable.  The
prompt loop consumes a list of input lines; `none` means the loop
never returns (it re-prompts forever on the given lines). -/

inductive PyFloat where
  | fin (q : Rat)
  | inf
  | ninf
  | nan
deriving DecidableEq, Repr

/-- Python `<` on float values: `nan` compares false with everything. -/
def pyLt : PyFloat → PyFloat → Bool
  | .nan, _ => false
  | _, .nan => false
  | .fin a, .fin b => decide (a < b)
  | .fin _, .inf => true
  | .fin _, .ninf => false
  | .inf, _ => false
  | .ninf, .ninf => false
  | .ninf, _ => true

/-- Continuation of a digit run: further digits, with single
underscores allowed between digits (as in CPython's float grammar). -/
def digitsCore : List Char → (List Char × List Char)
  | [] => ([], [])
  | c :: cs =>
    if c.isDigit then
      let (ds, rest) := digitsCore cs
      (c :: ds, rest)
    else if c = '_' then
      match cs with
      | c' :: cs' =>
        if c'.isDigit then
          let (ds, rest) := digitsCore cs'
          (c' :: ds, rest)
        else ([], c :: cs)
      | [] => ([], [c])
    else ([], c :: cs)

/-- A maximal digit run (underscores stripped), or no progress when
the input does not start with a digit. -/
def takeDigitRun : List Char → (List Char × List Char)
  | [] => ([], [])
  | c :: cs =>
    if c.isDigit then
      let (ds, rest) := digitsCore cs
      (c :: ds, rest)
    else ([], c :: cs)

def natOfDigits (ds : List Char) : Nat :=
  ds.foldl (fun acc c => 10 * acc + digitVal c) 0

/-- The rational value of `intPart.fracPart`. -/
def mantissaVal (ids fds : List Char) : Rat :=
  (natOfDigits ids : Rat) + (natOfDigits fds : Rat) / (10 : Rat) ^ fds.length

/-- Model of Python `float(s)`, returning `none` where it raises
`ValueError`. -/
def pyFloatOfString (s : String) : Option PyFloat :=
  let l0 := stripChars s.data
  let sn := match l0 with
    | '+' :: r => (false, r)
    | '-' :: r => (true, r)
    | _ => (false, l0)
  let neg := sn.1
  let l := sn.2
  let lw := l.map pyLowerChar
  if lw = "inf".data || lw = "infinity".data then
    some (if neg then .ninf else .inf)
  else if lw = "nan".data then some .nan
  else
    let (ids, r1) := takeDigitRun l
    let fr := match r1 with
      | '.' :: r => takeDigitRun r
      | _ => ([], r1)
    let fds := fr.1
    let r2 := fr.2
    if ids.isEmpty && fds.isEmpty then none
    else
      match r2 with
      | [] =>
        let q := mantissaVal ids fds
        some (.fin (if neg then -q else q))
      | e :: r3 =>
        if e = 'e' || e = 'E' then
          let es := match r3 with
            | '+' :: r => (false, r)
            | '-' :: r => (true, r)
            | _ => (false, r3)
          let (eds, r5) := takeDigitRun es.2
          if eds.isEmpty || !r5.isEmpty then none
          else
            let base := mantissaVal ids fds
            let q := if es.1 then base / (10 : Rat) ^ natOfDigits eds
                     else base * (10 : Rat) ^ natOfDigits eds
            some (.fin (if neg then -q else q))
        else none

def commaToDot (c : Char) : Char :=
  if c = ',' then '.' else c

/-- `input(prompt).strip().replace(",", ".")`. -/
def normalize_amount_input (s : String) : String :=
  ⟨(stripChars s.data).map commaToDot⟩

/-- `parse_float`: keep prompting until a line parses to a value that
is not `< 0`; that value is returned.  The prompt loop is driven by
the list of lines the user will type; an exhausted list models an
unterminated loop. -/
def parse_float : List String → Option PyFloat
  | [] => none
  | raw :: rest =>
    match pyFloatOfString (normalize_amount_input raw) with
    | some value => if pyLt value (.fin 0) then parse_float rest else some value
    | none => parse_float rest

theorem isPySpace_commaToDot (c : Char) : isPySpace (commaToDot c) = isPySpace c := by
  by_cases h : c = ','
  · subst h; decide
  · simp [commaToDot, h]

theorem dropWhile_map_commaToDot (l : List Char) :
    List.dropWhile isPySpace (l.map commaToDot) =
      (List.dropWhile isPySpace l).map commaToDot := by
  induction l with
  | nil => simp
  | cons c cs ih =>
    simp only [List.map_cons, List.dropWhile_cons, isPySpace_commaToDot]
    by_cases hc : isPySpace c = true
    · simp [hc, ih]
    · simp [hc]

theorem stripChars_map_commaToDot (l : List Char) :
    stripChars (l.map commaToDot) = (stripChars l).map commaToDot := by
  unfold stripChars
  rw [dropWhile_map_commaToDot, ← List.map_reverse, dropWhile_map_commaToDot,
    ← List.map_reverse]

theorem map_commaToDot_idem (l : List Char) :
    (l.map commaToDot).map commaToDot = l.map commaToDot := by
  simp only [List.map_map]
  apply List.map_congr_left
  intro c _
  by_cases h : c = ',' <;> simp [commaToDot, h]

/-- C4 (corrected): counterexample to the claim as stated — the input
"nan" is neither re-prompted nor rejected: `float("nan")` succeeds and
`nan < 0` is false, so `parse_float` returns NaN, which is not a
non-negative decimal number. -/
theorem parse_float_nan_counterexample :
    parse_float ["nan"] = some PyFloat.nan ∧
    pyLt PyFloat.nan (.fin 0) = false :=
  ⟨rfl, rfl⟩

/-- C4 (amended): every finite value `parse_float` returns is
non-negative; replacing every `,` by `.` in a line does not change the
outcome (the two decimal renderings are accepted identically, e.g.
"120,50" and "120.50"); a line parsing to a value `< 0` and a
non-numeric line are both skipped with a re-prompt; but the special
spellings are accepted rather than re-prompted: "nan" returns NaN and
"inf" returns +infinity. -/
theorem parse_float_spec :
    (∀ (inputs : List String) (q : Rat),
      parse_float inputs = some (.fin q) → 0 ≤ q) ∧
    (∀ (raw : String) (rest : List String),
      parse_float (raw :: rest) =
        parse_float (⟨raw.data.map commaToDot⟩ :: rest)) ∧
    (∀ rest, parse_float ("120,50" :: rest) = parse_float ("120.50" :: rest)) ∧
    (∀ (raw : String) (rest : List String) (v : PyFloat),
      pyFloatOfString (normalize_amount_input raw) = some v →
      pyLt v (.fin 0) = true →
      parse_float (raw :: rest) = parse_float rest) ∧
    (∀ (raw : String) (rest : List String),
      pyFloatOfString (normalize_amount_input raw) = none →
      parse_float (raw :: rest) = parse_float rest) ∧
    (∀ rest, parse_float ("nan" :: rest) = some PyFloat.nan) ∧
    (∀ rest, parse_float ("inf" :: rest) = some PyFloat.inf) := by
  have hnorm : ∀ raw : String,
      normalize_amount_input (⟨raw.data.map commaToDot⟩ : String) =
        normalize_amount_input raw := by
    intro raw
    unfold normalize_amount_input
    rw [stripChars_map_commaToDot, map_commaToDot_idem]
  refine ⟨?_, ?_, ?_, ?_, ?_, fun rest => rfl, fun rest => rfl⟩
  · intro inputs
    induction inputs with
    | nil => intro q h; cases h
    | cons raw rest ih =>
      intro q h
      simp only [parse_float] at h
      cases hv : pyFloatOfString (normalize_amount_input raw) with
      | none =>
        rw [hv] at h
        exact ih q h
      | some v =>
        rw [hv] at h
        have h2 : (if pyLt v (PyFloat.fin 0) = true then parse_float rest else some v) =
            some (PyFloat.fin q) := h
        by_cases hlt : pyLt v (.fin 0) = true
        · rw [if_pos hlt] at h2
          exact ih q h2
        · rw [if_neg hlt] at h2
          injection h2 with h'
          subst h'
          simp only [pyLt, decide_eq_true_eq] at hlt
          exact le_of_not_lt hlt
  · intro raw rest
    simp only [parse_float, hnorm]
  · intro rest
    rfl
  · intro raw rest v hv hlt
    simp only [parse_float, hv]
    rw [if_pos hlt]
  · intro raw rest hv
    simp only [parse_float, hv]

/-- Witness for C4: the line "7" parses and the returned finite value
is non-negative. -/
theorem parse_float_spec_witness :
    0 ≤ mantissaVal ['7'] [] := by
  have h0 : pyFloatOfString (normalize_amount_input "7") =
      some (PyFloat.fin (mantissaVal ['7'] [])) := rfl
  have h7 : parse_float ["7"] = some (PyFloat.fin (mantissaVal ['7'] [])) := by
    simp only [parse_float, h0]
    rw [if_neg ?_]
    simp only [pyLt, decide_eq_true_eq, not_lt]
    unfold mantissaVal
    positivity
  exact parse_float_spec.1 ["7"] (mantissaVal ['7'] []) h7

/-! ## The command dispatcher (`handle_command`) -/

/-- One recognized command branch (or the unrecognized fallback). -/
inductive BotAction where
  | helpCmd
  | setBudget
  | addExpense
  | showExpenses
  | expensesByDate
  | expensesByPeriod
  | expensesByCategory
  | balanceCmd
  | reportCmd
  | exitCmd
  | notRecognized
deriving DecidableEq, Repr

/-- The if/elif chain of `handle_command` on the normalized phrase
`cmd`; the `Bool` is the handler's return value (`False` only for the
exit phrases). -/
def dispatch_phrase (cmd : String) : BotAction × Bool :=
  if cmd = "допомога" || cmd = "help" || cmd = "?" then (.helpCmd, true)
  else if cmd = "встановити бюджет" then (.setBudget, true)
  else if cmd = "додати витрату" then (.addExpense, true)
  else if cmd = "показати витрати" then (.showExpenses, true)
  else if cmd = "витрати за дату" then (.expensesByDate, true)
  else if cmd = "витрати за період" then (.expensesByPeriod, true)
  else if cmd = "витрати за категорією" then (.expensesByCategory, true)
  else if cmd = "залишок" then (.balanceCmd, true)
  else if cmd = "звіт за категоріями" then (.reportCmd, true)
  else if cmd = "вийти" || cmd = "exit" || cmd = "quit" then (.exitCmd, false)
  else (.notRecognized, true)

/-- `handle_command`: `cmd = command.strip().lower()`, then dispatch. -/
def handle_command (command : String) : BotAction × Bool :=
  dispatch_phrase (pyLower (pyStrip command))

theorem toNat_ofNat_valid {n : Nat} (h : n < 0xd800) : (Char.ofNat n).toNat = n := by
  rw [Char.ofNat, dif_pos (Or.inl h)]
  rfl

theorem char_le_iff_toNat {a b : Char} : a ≤ b ↔ a.toNat ≤ b.toNat := by
  rw [Char.le_def, UInt32.le_def, BitVec.le_def]
  exact Iff.rfl

theorem pyLowerChar_ascii {c : Char} (h : c.toNat < 128) :
    (pyLowerChar c).toNat < 128 := by
  unfold pyLowerChar
  split_ifs with h1 h2 h3 h4
  · rw [Bool.and_eq_true, decide_eq_true_eq, decide_eq_true_eq] at h1
    have hz : c.toNat ≤ 90 := char_le_iff_toNat.1 h1.2
    rw [toNat_ofNat_valid (by omega)]
    omega
  · rw [Bool.and_eq_true, decide_eq_true_eq, decide_eq_true_eq] at h2
    omega
  · rw [Bool.and_eq_true, decide_eq_true_eq, decide_eq_true_eq] at h3
    omega
  · omega
  · exact h

theorem isPySpace_false_of_not_small {x : Char} (h : 33 ≤ x.toNat) :
    isPySpace x = false := by
  have hne : ∀ y : Char, y.toNat < 33 → x ≠ y := by
    intro y hy hxy
    subst hxy
    omega
  simp [isPySpace, hne ' ' (by decide), hne '\t' (by decide), hne '\n' (by decide),
    hne '\r' (by decide), hne (Char.ofNat 0x0b) (by decide),
    hne (Char.ofNat 0x0c) (by decide)]

theorem isPySpace_pyLowerChar (c : Char) : isPySpace (pyLowerChar c) = isPySpace c := by
  unfold pyLowerChar
  split_ifs with h1 h2 h3 h4
  · rw [Bool.and_eq_true, decide_eq_true_eq, decide_eq_true_eq] at h1
    have ha : 65 ≤ c.toNat := char_le_iff_toNat.1 h1.1
    have hz : c.toNat ≤ 90 := char_le_iff_toNat.1 h1.2
    rw [isPySpace_false_of_not_small (by rw [toNat_ofNat_valid (by omega)]; omega),
      isPySpace_false_of_not_small (by omega)]
  · rw [Bool.and_eq_true, decide_eq_true_eq, decide_eq_true_eq] at h2
    rw [isPySpace_false_of_not_small (by rw [toNat_ofNat_valid (by omega)]; omega),
      isPySpace_false_of_not_small (by omega)]
  · rw [Bool.and_eq_true, decide_eq_true_eq, decide_eq_true_eq] at h3
    rw [isPySpace_false_of_not_small (by rw [toNat_ofNat_valid (by omega)]; omega),
      isPySpace_false_of_not_small (by omega)]
  · rw [isPySpace_false_of_not_small (by rw [toNat_ofNat_valid (by omega)]; omega),
      isPySpace_false_of_not_small (by omega)]
  · rfl

theorem pyLowerChar_fix {x : Char} (hA : ¬ (65 ≤ x.toNat ∧ x.toNat ≤ 90))
    (hB : ¬ (0x410 ≤ x.toNat ∧ x.toNat ≤ 0x42F))
    (hC : ¬ (0x400 ≤ x.toNat ∧ x.toNat ≤ 0x40F))
    (hD : x.toNat ≠ 0x490) : pyLowerChar x = x := by
  have c1 : ¬ (('A' ≤ x && x ≤ 'Z') = true) := by
    rw [Bool.and_eq_true, decide_eq_true_eq, decide_eq_true_eq]
    rintro ⟨ha, hz⟩
    exact hA ⟨char_le_iff_toNat.1 ha, char_le_iff_toNat.1 hz⟩
  have c2 : ¬ ((0x410 ≤ x.toNat && x.toNat ≤ 0x42F) = true) := by
    rw [Bool.and_eq_true, decide_eq_true_eq, decide_eq_true_eq]
    exact hB
  have c3 : ¬ ((0x400 ≤ x.toNat && x.toNat ≤ 0x40F) = true) := by
    rw [Bool.and_eq_true, decide_eq_true_eq, decide_eq_true_eq]
    exact hC
  unfold pyLowerChar
  rw [if_neg c1, if_neg c2, if_neg c3, if_neg hD]

theorem pyLowerChar_idem (c : Char) : pyLowerChar (pyLowerChar c) = pyLowerChar c := by
  by_cases h1 : ('A' ≤ c && c ≤ 'Z') = true
  · have hx : pyLowerChar c = Char.ofNat (c.toNat + 32) := by
      unfold pyLowerChar
      rw [if_pos h1]
    rw [Bool.and_eq_true, decide_eq_true_eq, decide_eq_true_eq] at h1
    have ha : 65 ≤ c.toNat := char_le_iff_toNat.1 h1.1
    have hz : c.toNat ≤ 90 := char_le_iff_toNat.1 h1.2
    rw [hx]
    apply pyLowerChar_fix <;> rw [toNat_ofNat_valid (by omega)] <;> omega
  · by_cases h2 : ((0x410 ≤ c.toNat && c.toNat ≤ 0x42F) = true)
    · have hx : pyLowerChar c = Char.ofNat (c.toNat + 0x20) := by
        unfold pyLowerChar
        rw [if_neg h1, if_pos h2]
      rw [Bool.and_eq_true, decide_eq_true_eq, decide_eq_true_eq] at h2
      rw [hx]
      apply pyLowerChar_fix <;> rw [toNat_ofNat_valid (by omega)] <;> omega
    · by_cases h3 : ((0x400 ≤ c.toNat && c.toNat ≤ 0x40F) = true)
      · have hx : pyLowerChar c = Char.ofNat (c.toNat + 0x50) := by
          unfold pyLowerChar
          rw [if_neg h1, if_neg h2, if_pos h3]
        rw [Bool.and_eq_true, decide_eq_true_eq, decide_eq_true_eq] at h3
        rw [hx]
        apply pyLowerChar_fix <;> rw [toNat_ofNat_valid (by omega)] <;> omega
      · by_cases h4 : c.toNat = 0x490
        · have hx : pyLowerChar c = Char.ofNat 0x491 := by
            unfold pyLowerChar
            rw [if_neg h1, if_neg h2, if_neg h3, if_pos h4]
          rw [hx]
          apply pyLowerChar_fix <;> rw [toNat_ofNat_valid (by omega)] <;> omega
        · have hx : pyLowerChar c = c := by
            unfold pyLowerChar
            rw [if_neg h1, if_neg h2, if_neg h3, if_neg h4]
          rw [hx, hx]

theorem dropWhile_dropWhile_self (p : Char → Bool) (l : List Char) :
    List.dropWhile p (List.dropWhile p l) = List.dropWhile p l := by
  induction l with
  | nil => simp
  | cons c cs ih =>
    rw [List.dropWhile_cons]
    by_cases hc : p c = true
    · rw [if_pos hc]
      exact ih
    · rw [if_neg hc, List.dropWhile_cons, if_neg hc]

theorem dropWhile_of_stripped (m : List Char)
    (hm : List.dropWhile isPySpace m = m) :
    List.dropWhile isPySpace ((List.dropWhile isPySpace m.reverse).reverse) =
      (List.dropWhile isPySpace m.reverse).reverse := by
  cases hc : (List.dropWhile isPySpace m.reverse).reverse with
  | nil => simp
  | cons x xs =>
    have hpre : (List.dropWhile isPySpace m.reverse).reverse ++
        (List.takeWhile isPySpace m.reverse).reverse = m := by
      rw [← List.reverse_append, List.takeWhile_append_dropWhile, List.reverse_reverse]
    rw [hc] at hpre
    have hm' : m = x :: (xs ++ (List.takeWhile isPySpace m.reverse).reverse) :=
      hpre.symm
    have hx : isPySpace x = false := by
      by_contra hpx
      rw [Bool.not_eq_false] at hpx
      rw [hm', List.dropWhile_cons, if_pos hpx] at hm
      have hlen := congrArg List.length hm
      have hle := List.Sublist.length_le
        (@List.dropWhile_sublist _ (xs ++ (List.takeWhile isPySpace m.reverse).reverse)
          isPySpace)
      simp at hlen hle
      omega
    rw [List.dropWhile_cons, if_neg (by simp [hx])]

theorem stripChars_idem (l : List Char) : stripChars (stripChars l) = stripChars l := by
  have h1 : List.dropWhile isPySpace (stripChars l) = stripChars l :=
    dropWhile_of_stripped (List.dropWhile isPySpace l) (dropWhile_dropWhile_self _ _)
  show ((List.dropWhile isPySpace (stripChars l)).reverse.dropWhile isPySpace).reverse =
    stripChars l
  rw [h1]
  show (((((List.dropWhile isPySpace l).reverse.dropWhile
      isPySpace).reverse).reverse).dropWhile isPySpace).reverse = stripChars l
  rw [List.reverse_reverse, dropWhile_dropWhile_self]
  rfl

theorem dropWhile_map_pyLowerChar (l : List Char) :
    List.dropWhile isPySpace (l.map pyLowerChar) =
      (List.dropWhile isPySpace l).map pyLowerChar := by
  induction l with
  | nil => simp
  | cons c cs ih =>
    simp only [List.map_cons, List.dropWhile_cons, isPySpace_pyLowerChar]
    by_cases hc : isPySpace c = true
    · simp [hc, ih]
    · simp [hc]

theorem stripChars_map_pyLowerChar (l : List Char) :
    stripChars (l.map pyLowerChar) = (stripChars l).map pyLowerChar := by
  unfold stripChars
  rw [dropWhile_map_pyLowerChar, ← List.map_reverse, dropWhile_map_pyLowerChar,
    ← List.map_reverse]

theorem map_pyLowerChar_idem (l : List Char) :
    (l.map pyLowerChar).map pyLowerChar = l.map pyLowerChar := by
  simp only [List.map_map]
  apply List.map_congr_left
  intro c _
  exact pyLowerChar_idem c

theorem mem_of_mem_stripChars {c : Char} {l : List Char} (h : c ∈ stripChars l) :
    c ∈ l := by
  unfold stripChars at h
  rw [List.mem_reverse] at h
  have h2 := List.dropWhile_subset isPySpace h
  rw [List.mem_reverse] at h2
  exact List.dropWhile_subset isPySpace h2

theorem pyStrip_idem (s : String) : pyStrip (pyStrip s) = pyStrip s :=
  congrArg String.mk (stripChars_idem s.data)

theorem pyStrip_pyLower (s : String) : pyStrip (pyLower s) = pyLower (pyStrip s) :=
  congrArg String.mk (stripChars_map_pyLowerChar s.data)

theorem pyLower_pyLower (s : String) : pyLower (pyLower s) = pyLower s :=
  congrArg String.mk (map_pyLowerChar_idem s.data)

/-- A string of ASCII characters only. -/
def asciiOnly (s : String) : Prop := ∀ c ∈ s.data, c.toNat < 128

/-- The dispatcher reaches action `a` on some all-ASCII input. -/
def acceptsAsciiSynonym (a : BotAction) : Prop :=
  ∃ s : String, asciiOnly s ∧ (handle_command s).1 = a

set_option maxHeartbeats 2000000 in
/-- Reaching any branch other than help, exit and the fallback pins
the normalized input (`command.strip().lower()`) to that branch's
unique phrase. -/
theorem handle_command_phrase (s : String) :
    ((handle_command s).1 = BotAction.setBudget →
      pyLower (pyStrip s) = "встановити бюджет") ∧
    ((handle_command s).1 = BotAction.addExpense →
      pyLower (pyStrip s) = "додати витрату") ∧
    ((handle_command s).1 = BotAction.showExpenses →
      pyLower (pyStrip s) = "показати витрати") ∧
    ((handle_command s).1 = BotAction.expensesByDate →
      pyLower (pyStrip s) = "витрати за дату") ∧
    ((handle_command s).1 = BotAction.expensesByPeriod →
      pyLower (pyStrip s) = "витрати за період") ∧
    ((handle_command s).1 = BotAction.expensesByCategory →
      pyLower (pyStrip s) = "витрати за категорією") ∧
    ((handle_command s).1 = BotAction.balanceCmd →
      pyLower (pyStrip s) = "залишок") ∧
    ((handle_command s).1 = BotAction.reportCmd →
      pyLower (pyStrip s) = "звіт за категоріями") := by
  unfold handle_command dispatch_phrase
  split_ifs <;> simp_all

/-- If the only phrase reaching action `a` contains a non-ASCII
character, then no all-ASCII input reaches `a`: stripping and
lowercasing keep ASCII characters ASCII. -/
theorem no_ascii_reaches (a : BotAction) (t : String) (c : Char)
    (hc : c ∈ t.data) (hbig : 128 ≤ c.toNat)
    (honly : ∀ s : String, (handle_command s).1 = a → pyLower (pyStrip s) = t) :
    ¬ acceptsAsciiSynonym a := by
  rintro ⟨s, hascii, hcmd⟩
  have hk := honly s hcmd
  have hmem : c ∈ (pyLower (pyStrip s)).data := by
    rw [hk]
    exact hc
  have hmem2 : c ∈ (stripChars s.data).map pyLowerChar := hmem
  rw [List.mem_map] at hmem2
  obtain ⟨c0, hc0, hlc⟩ := hmem2
  have h128 := pyLowerChar_ascii (hascii c0 (mem_of_mem_stripChars hc0))
  rw [hlc] at h128
  omega

/-- Each of the eight non-help/exit commands is accepted only under
its Ukrainian phrase (first half) and consequently has no ASCII
synonym at all (second half). -/
theorem ukrainian_only_no_ascii :
    (∀ s : String,
      ((handle_command s).1 = BotAction.setBudget →
        pyLower (pyStrip s) = "встановити бюджет") ∧
      ((handle_command s).1 = BotAction.addExpense →
        pyLower (pyStrip s) = "додати витрату") ∧
      ((handle_command s).1 = BotAction.showExpenses →
        pyLower (pyStrip s) = "показати витрати") ∧
      ((handle_command s).1 = BotAction.expensesByDate →
        pyLower (pyStrip s) = "витрати за дату") ∧
      ((handle_command s).1 = BotAction.expensesByPeriod →
        pyLower (pyStrip s) = "витрати за період") ∧
      ((handle_command s).1 = BotAction.expensesByCategory →
        pyLower (pyStrip s) = "витрати за категорією") ∧
      ((handle_command s).1 = BotAction.balanceCmd →
        pyLower (pyStrip s) = "залишок") ∧
      ((handle_command s).1 = BotAction.reportCmd →
        pyLower (pyStrip s) = "звіт за категоріями")) ∧
    (¬ acceptsAsciiSynonym BotAction.setBudget ∧
     ¬ acceptsAsciiSynonym BotAction.addExpense ∧
     ¬ acceptsAsciiSynonym BotAction.showExpenses ∧
     ¬ acceptsAsciiSynonym BotAction.expensesByDate ∧
     ¬ acceptsAsciiSynonym BotAction.expensesByPeriod ∧
     ¬ acceptsAsciiSynonym BotAction.expensesByCategory ∧
     ¬ acceptsAsciiSynonym BotAction.balanceCmd ∧
     ¬ acceptsAsciiSynonym BotAction.reportCmd) :=
  ⟨handle_command_phrase,
   no_ascii_reaches _ "встановити бюджет" 'в' (by decide) (by decide)
     (fun s h => (handle_command_phrase s).1 h),
   no_ascii_reaches _ "додати витрату" 'д' (by decide) (by decide)
     (fun s h => (handle_command_phrase s).2.1 h),
   no_ascii_reaches _ "показати витрати" 'п' (by decide) (by decide)
     (fun s h => (handle_command_phrase s).2.2.1 h),
   no_ascii_reaches _ "витрати за дату" 'в' (by decide) (by decide)
     (fun s h => (handle_command_phrase s).2.2.2.1 h),
   no_ascii_reaches _ "витрати за період" 'в' (by decide) (by decide)
     (fun s h => (handle_command_phrase s).2.2.2.2.1 h),
   no_ascii_reaches _ "витрати за категорією" 'в' (by decide) (by decide)
     (fun s h => (handle_command_phrase s).2.2.2.2.2.1 h),
   no_ascii_reaches _ "залишок" 'з' (by decide) (by decide)
     (fun s h => (handle_command_phrase s).2.2.2.2.2.2.1 h),
   no_ascii_reaches _ "звіт за категоріями" 'з' (by decide) (by decide)
     (fun s h => (handle_command_phrase s).2.2.2.2.2.2.2 h)⟩

/-- C9 (corrected): counterexample to the claim as stated — NONE of
the eight non-help/exit commands (set-budget, add-expense,
show-expenses, expenses-by-date, expenses-by-period,
expenses-by-category, balance, report-by-category) has an ASCII
synonym: each is reachable only via its Cyrillic phrase, and
stripping/lowercasing an all-ASCII input yields an all-ASCII phrase,
so no ASCII input reaches any of their handlers. -/
theorem handle_no_ascii_synonyms :
    ¬ acceptsAsciiSynonym BotAction.setBudget ∧
    ¬ acceptsAsciiSynonym BotAction.addExpense ∧
    ¬ acceptsAsciiSynonym BotAction.showExpenses ∧
    ¬ acceptsAsciiSynonym BotAction.expensesByDate ∧
    ¬ acceptsAsciiSynonym BotAction.expensesByPeriod ∧
    ¬ acceptsAsciiSynonym BotAction.expensesByCategory ∧
    ¬ acceptsAsciiSynonym BotAction.balanceCmd ∧
    ¬ acceptsAsciiSynonym BotAction.reportCmd :=
  ukrainian_only_no_ascii.2

set_option maxHeartbeats 2000000 in
/-- C9 (amended): the dispatcher is insensitive to surrounding
whitespace and to letter case; the help and exit commands are accepted
under ASCII synonyms ("help", "?", "exit", "quit") while the remaining
eight commands are accepted under their Ukrainian phrases and ONLY
under them — each of the eight is reached only when the normalized
input equals its Ukrainian phrase, and none has an ASCII synonym; an
unrecognized phrase maps to the not-recognized fallback without
signaling termination, and the exit phrases are exactly the inputs
whose handler signals loop termination (returns `False`). -/
theorem handle_command_spec :
    (∀ s, handle_command (pyStrip s) = handle_command s) ∧
    (∀ s, handle_command (pyLower s) = handle_command s) ∧
    ((handle_command "help").1 = BotAction.helpCmd ∧
     (handle_command "?").1 = BotAction.helpCmd ∧
     (handle_command "допомога").1 = BotAction.helpCmd ∧
     (handle_command "встановити бюджет").1 = BotAction.setBudget ∧
     (handle_command "додати витрату").1 = BotAction.addExpense ∧
     (handle_command "показати витрати").1 = BotAction.showExpenses ∧
     (handle_command "витрати за дату").1 = BotAction.expensesByDate ∧
     (handle_command "витрати за період").1 = BotAction.expensesByPeriod ∧
     (handle_command "витрати за категорією").1 = BotAction.expensesByCategory ∧
     (handle_command "залишок").1 = BotAction.balanceCmd ∧
     (handle_command "звіт за категоріями").1 = BotAction.reportCmd ∧
     (handle_command "вийти").1 = BotAction.exitCmd ∧
     (handle_command "exit").1 = BotAction.exitCmd ∧
     (handle_command "quit").1 = BotAction.exitCmd) ∧
    (∀ s, (handle_command s).2 = false ↔ (handle_command s).1 = BotAction.exitCmd) ∧
    (handle_command "set-budget" = (BotAction.notRecognized, true) ∧
     handle_command "  ДОПОМОГА " = (BotAction.helpCmd, true)) ∧
    ((∀ s : String,
      ((handle_command s).1 = BotAction.setBudget →
        pyLower (pyStrip s) = "встановити бюджет") ∧
      ((handle_command s).1 = BotAction.addExpense →
        pyLower (pyStrip s) = "додати витрату") ∧
      ((handle_command s).1 = BotAction.showExpenses →
        pyLower (pyStrip s) = "показати витрати") ∧
      ((handle_command s).1 = BotAction.expensesByDate →
        pyLower (pyStrip s) = "витрати за дату") ∧
      ((handle_command s).1 = BotAction.expensesByPeriod →
        pyLower (pyStrip s) = "витрати за період") ∧
      ((handle_command s).1 = BotAction.expensesByCategory →
        pyLower (pyStrip s) = "витрати за категорією") ∧
      ((handle_command s).1 = BotAction.balanceCmd →
        pyLower (pyStrip s) = "залишок") ∧
      ((handle_command s).1 = BotAction.reportCmd →
        pyLower (pyStrip s) = "звіт за категоріями")) ∧
    (¬ acceptsAsciiSynonym BotAction.setBudget ∧
     ¬ acceptsAsciiSynonym BotAction.addExpense ∧
     ¬ acceptsAsciiSynonym BotAction.showExpenses ∧
     ¬ acceptsAsciiSynonym BotAction.expensesByDate ∧
     ¬ acceptsAsciiSynonym BotAction.expensesByPeriod ∧
     ¬ acceptsAsciiSynonym BotAction.expensesByCategory ∧
     ¬ acceptsAsciiSynonym BotAction.balanceCmd ∧
     ¬ acceptsAsciiSynonym BotAction.reportCmd)) := by
  refine ⟨?_, ?_, ?_, ?_, ?_, ukrainian_only_no_ascii⟩
  · intro s
    unfold handle_command
    rw [pyStrip_idem]
  · intro s
    unfold handle_command
    rw [pyStrip_pyLower, pyLower_pyLower]
  · exact ⟨by decide, by decide, by decide, by decide, by decide, by decide, by decide,
      by decide, by decide, by decide, by decide, by decide, by decide, by decide⟩
  · intro s
    unfold handle_command dispatch_phrase
    split_ifs <;> decide
  · exact ⟨by decide, by decide⟩
